import Mathlib

/-!
Formal model of the ddup reconciliation engine.

This file gives a shallow embedding of the core algorithms of ddup:

* the per-domain reconciliation step `checkAndUpdateDNSDomain`
  (from `pkg/healthcheck/healthchecker.go`, `checkAndUpdateDNS`, together with
  `domainChecker.setState` / `setError` from `pkg/healthcheck/domainchecker.go`);
* the status derivation `getStatusEndpoints`
  (from `pkg/healthcheck/status.go`, `getStatusObject`);
* the per-probe HTTP-client/transport handling
  (from `pkg/healthcheck/checker.go`, `checkEndpoint`);
* the record-oriented DNS reconciliation of the Cloudflare and Unifi adaptors
  (from `pkg/dns/cloudflare.go` and `pkg/dns/unifi.go`, `UpdateRecords`);
* the record-set-oriented DNS reconciliation of the Azure adaptor
  (`AzureProvider.UpdateRecords`).

Go maps `map[string]V` are modelled as association lists; Go's 64-bit `int`
is modelled as `Int` with explicit two's-complement wrap-around where the code
can overflow.  Network effects are modelled by passing the data the code reads
from the network (probe results, the provider's current records) as inputs, and
by an oracle assigning an optional error to every mutating request the adaptor
issues.
-/

namespace Ddup

/-- Lookup in an association list, modelling a read `m[k]` from a Go
`map[string]V` (`none` models a missing key). -/
def alistGet {β : Type} (m : List (String × β)) (k : String) : Option β :=
  match m.find? (fun e => e.1 == k) with
  | some e => some e.2
  | none => none

/-- Lookup with Go's zero-value default: `m[k]` on a `map[string]int` returns
`0` when the key is absent. -/
def alistGetD (m : List (String × Int)) (k : String) : Int :=
  (alistGet m k).getD 0

/-- Write `m[k] = v` on a Go map: the binding for `k` is replaced. -/
def alistSet {β : Type} (m : List (String × β)) (k : String) (v : β) :
    List (String × β) :=
  (k, v) :: m.filter (fun e => e.1 != k)

/-- Go's `delete(m, k)`. -/
def alistDel {β : Type} (m : List (String × β)) (k : String) :
    List (String × β) :=
  m.filter (fun e => e.1 != k)

/-- Keys of the modelled map. -/
def alistKeys {β : Type} (m : List (String × β)) : List String :=
  m.map Prod.fst

/-- Largest value of Go's 64-bit `int` (`math.MaxInt` on a 64-bit platform). -/
def goMaxInt : Int := 9223372036854775807

/-- Two's-complement wrap-around of a 64-bit signed integer, modelling Go's
defined overflow behaviour for `int`. -/
def goWrap64 (x : Int) : Int :=
  (x + 9223372036854775808) % 18446744073709551616 - 9223372036854775808

/-- One failure-count increment of `checkAndUpdateDNS`
(healthchecker.go:100-105): `failedIPs[ip]++` wraps on overflow, and the
following guard `if failedIPs[ip] < 0 { failedIPs[ip] = math.MaxInt }`
pins negative values at `math.MaxInt`. -/
def incrFailedCount (c : Int) : Int :=
  let c1 := goWrap64 (c + 1)
  if c1 < 0 then goMaxInt else c1

/-- Inner loop of `utils.ElementsMatch` (pkg/utils/functions.go): find the
first not-yet-visited position of `listB` holding `el` and mark it visited. -/
def markFirst (el : String) : List String → List Bool → Option (List Bool)
  | b :: bs, v :: vs =>
    if !v && b == el then some (true :: vs)
    else
      match markFirst el bs vs with
      | some vs2 => some (v :: vs2)
      | none => none
  | _, _ => none

/-- Outer loop of `utils.ElementsMatch`: each element of `listA` must claim a
distinct position of `listB`. -/
def elementsMatchLoop (listB : List String) : List String → List Bool → Bool
  | [], _ => true
  | el :: rest, visited =>
    match markFirst el listB visited with
    | some visited2 => elementsMatchLoop listB rest visited2
    | none => false

/-- Model of `utils.ElementsMatch` (pkg/utils/functions.go): true iff the two
lists contain the same elements with multiplicity, regardless of order. -/
def ElementsMatch (listA listB : List String) : Bool :=
  if listA.length != listB.length then false
  else elementsMatchLoop listB listA (List.replicate listB.length false)

/-- Mutable per-domain runtime state of `domainChecker`
(pkg/healthcheck/domainchecker.go).  `lastUpdated` is an abstract timestamp. -/
structure DomainState where
  healthyIPs : List String
  failedIPs : List (String × Int)
  lastUpdated : Nat
  lastError : String
deriving DecidableEq, Repr

/-- The result-collection loop of `checkAndUpdateDNS`
(healthchecker.go:86-113).  `currentHealthyIPs` is the published set read from
the state before the loop; each probe result either resets an IP's failure
record (healthy) or increments it, keeping the IP in the new healthy list only
while the count is below `maxAttempts` and the IP was previously healthy. -/
def collectHealthy (maxAttempts : Int) (currentHealthyIPs : List String) :
    List (String × Bool) → List String → List (String × Int) →
    List String × List (String × Int)
  | [], newHealthyIPs, failedIPs => (newHealthyIPs, failedIPs)
  | (ip, healthy) :: rest, newHealthyIPs, failedIPs =>
    if healthy then
      collectHealthy maxAttempts currentHealthyIPs rest
        (newHealthyIPs ++ [ip]) (alistDel failedIPs ip)
    else
      let c := incrFailedCount (alistGetD failedIPs ip)
      let failedIPs2 := alistSet failedIPs ip c
      if c < maxAttempts ∧ ip ∈ currentHealthyIPs then
        collectHealthy maxAttempts currentHealthyIPs rest
          (newHealthyIPs ++ [ip]) failedIPs2
      else
        collectHealthy maxAttempts currentHealthyIPs rest newHealthyIPs failedIPs2

/-- One reconciliation tick for one domain: the body of the per-domain loop of
`HealthChecker.checkAndUpdateDNS` (healthchecker.go:74-138).

`results` are the probe outcomes `(endpoint IP, healthy)` returned by
`checker.CheckAll`; `updateErr` is the outcome the DNS provider would return if
`UpdateRecords` were called (`none` = success); `now` is the wall clock.

Returns the state after the tick and `some ips` when `UpdateRecords` was
invoked with `ips` (`none` when the provider was not called).  On a provider
error the code logs, calls `dc.setError` and `continue`s, skipping
`dc.setState`, so the stored IPs and counts are left untouched. -/
def checkAndUpdateDNSDomain (maxAttempts : Int) (s : DomainState)
    (results : List (String × Bool)) (updateErr : Option String) (now : Nat) :
    DomainState × Option (List String) :=
  let r := collectHealthy maxAttempts s.healthyIPs results [] s.failedIPs
  let newHealthyIPs := r.1
  let failedIPs := r.2
  if ElementsMatch s.healthyIPs newHealthyIPs then
    (⟨newHealthyIPs, failedIPs, now, ""⟩, none)
  else if newHealthyIPs.length > 0 then
    match updateErr with
    | some msg =>
      ({ s with lastUpdated := now,
                lastError := "Error updating DNS records: " ++ msg },
       some newHealthyIPs)
    | none => (⟨newHealthyIPs, failedIPs, now, ""⟩, some newHealthyIPs)
  else
    (⟨newHealthyIPs, failedIPs, now, ""⟩, none)

/-- One entry of the JSON status for a domain (status.go,
`DomainStatusEndpoint`). -/
structure DomainStatusEndpoint where
  healthy : Bool
  ip : String
  failureCount : Int
deriving DecidableEq, Repr

/-- Endpoint derivation of `HealthChecker.getStatusObject`
(pkg/healthcheck/status.go:81-111) over a snapshot of the domain state:
every IP of the `healthy` list is emitted with `healthy:true` and its current
failure count (`0` if absent), and an entry of the `unhealthy` failure-count
map is emitted with `healthy:false` only when its count has reached
`maxAttempts` (the code's comment assumes any IP with a smaller count is also
in the healthy list). -/
def getStatusEndpoints (healthy : List String) (unhealthy : List (String × Int))
    (maxAttempts : Int) : List DomainStatusEndpoint :=
  healthy.map (fun ip => ⟨true, ip, alistGetD unhealthy ip⟩)
    ++ (unhealthy.filter (fun e => maxAttempts ≤ e.2)).map
        (fun e => ⟨false, e.1, e.2⟩)

/-- Model of Go's `tls.Config` as read and written by `checkEndpoint`:
only the fields the code touches. `tls.VersionTLS12` is the constant 0x0303. -/
structure GoTLSConfig where
  serverName : String
  minVersion : Nat
deriving DecidableEq, Repr

/-- Model of Go's `http.Transport` as touched by `checkEndpoint`. -/
structure GoTransport where
  tlsClientConfig : Option GoTLSConfig
deriving DecidableEq, Repr

/-- The TLS constant `tls.VersionTLS12`. -/
def tlsVersionTLS12 : Nat := 771

/-- The value of the shared HTTP client's `Transport` field after one run of
the host-override block of `checker.checkEndpoint`
(pkg/healthcheck/checker.go:266-296).

In the source, `client := c.client` copies the *pointer* to the checker's
shared `http.Client`, so the final statement `client.Transport = transport`
assigns the shared client's `Transport` field; this function returns that
field's value after the probe-setup runs (its value before is the argument
`ct`).  When the client already holds a transport whose `TLSClientConfig` is
non-nil the code clones it before setting `ServerName`; when the config is nil
it writes a fresh config into the existing transport; when the client has no
transport it builds a fresh one — in every https-with-host case the resulting
transport is stored back into the shared client. -/
def checkEndpointClientTransport (ct : Option GoTransport) (host : String)
    (schemeIsHttps : Bool) : Option GoTransport :=
  if host = "" then ct
  else if ¬schemeIsHttps then ct
  else
    match ct with
    | some t =>
      let t2 :=
        match t.tlsClientConfig with
        | none => { t with tlsClientConfig := some ⟨"", tlsVersionTLS12⟩ }
        | some _ => t
      some { t2 with
             tlsClientConfig :=
               t2.tlsClientConfig.map (fun c => { c with serverName := host }) }
    | none => some ⟨some ⟨host, tlsVersionTLS12⟩⟩

/-- A DNS record as returned by the record-oriented providers' list call
(`CloudflareRecord` content/id; `UnifiDNSRecord` value/id). -/
structure CFRecord where
  id : String
  content : String
deriving DecidableEq, Repr

/-- A mutating API request of a record-oriented provider.  The `delete`
request carries the record ID it targets together with the IP of that record
(used in the code's error message). -/
inductive CFRequest where
  | delete (recordID : String) (ip : String)
  | post (ip : String)
deriving DecidableEq, Repr

/-- Construction of the `existing: ip → recordId` map of
`CloudflareProvider.UpdateRecords` (cloudflare.go:58-62): later records with
the same content overwrite earlier ones, as in a Go map assignment. -/
def buildExistingIPs (records : List CFRecord) : List (String × String) :=
  records.foldl (fun m r => alistSet m r.content r.id) []

/-- Delete phase of the record-oriented `UpdateRecords`
(cloudflare.go:70-83, unifi.go:112-125): every existing record whose IP is not
desired is deleted; the first failing DELETE aborts with a wrapped error.
Returns the issued requests and the final outcome of the phase. -/
def cfDeletePhase (oracle : CFRequest → Option String) (ips : List String) :
    List (String × String) → List CFRequest × Option String
  | [] => ([], none)
  | (ip, recordID) :: rest =>
    if ip ∈ ips then cfDeletePhase oracle ips rest
    else
      match oracle (.delete recordID ip) with
      | some e =>
        ([.delete recordID ip],
         some ("error deleting record " ++ recordID ++ " for IP " ++ ip ++ ": " ++ e))
      | none =>
        let r := cfDeletePhase oracle ips rest
        (.delete recordID ip :: r.1, r.2)

/-- Create phase of the record-oriented `UpdateRecords`
(cloudflare.go:85-98, unifi.go:127-140): every desired IP with no existing
record is created; the first failing POST aborts with a wrapped error. -/
def cfCreatePhase (oracle : CFRequest → Option String)
    (existing : List (String × String)) :
    List String → List CFRequest × Option String
  | [] => ([], none)
  | ip :: rest =>
    if (alistGet existing ip).isSome then cfCreatePhase oracle existing rest
    else
      match oracle (.post ip) with
      | some e => ([.post ip], some ("error creating record for IP " ++ ip ++ ": " ++ e))
      | none =>
        let r := cfCreatePhase oracle existing rest
        (.post ip :: r.1, r.2)

/-- Model of `CloudflareProvider.UpdateRecords` (pkg/dns/cloudflare.go:51-101)
after the initial GET: `records` is the provider's current view, `ips` the
desired IPs, and `oracle` assigns an optional error to each mutating request.
Returns the requests actually issued, in order, and the call's outcome. -/
def cloudflareUpdateRecords (records : List CFRecord) (ips : List String)
    (oracle : CFRequest → Option String) : List CFRequest × Option String :=
  let existing := buildExistingIPs records
  let d := cfDeletePhase oracle ips existing
  match d.2 with
  | some e => (d.1, some e)
  | none =>
    let c := cfCreatePhase oracle existing ips
    (d.1 ++ c.1, c.2)

/-- Model of `UnifiProvider.UpdateRecords` (pkg/dns/unifi.go:93-143) after the
initial GET: the diff-and-mutate logic is line-for-line the same as the
Cloudflare adaptor's (the record's `Value` plays the role of `Content`). -/
def unifiUpdateRecords (records : List CFRecord) (ips : List String)
    (oracle : CFRequest → Option String) : List CFRequest × Option String :=
  let existing := buildExistingIPs records
  let d := cfDeletePhase oracle ips existing
  match d.2 with
  | some e => (d.1, some e)
  | none =>
    let c := cfCreatePhase oracle existing ips
    (d.1 ++ c.1, c.2)

/-- Modelled from the spec (§4.3 archetype A, P2): the planned request list of
a record-oriented reconciliation — one DELETE for each existing record whose
IP is not desired, followed by one POST for each desired IP with no existing
record. -/
def cfPlannedRequests (records : List CFRecord) (ips : List String) :
    List CFRequest :=
  let existing := buildExistingIPs records
  ((existing.filter (fun e => e.1 ∉ ips)).map (fun e => CFRequest.delete e.2 e.1))
    ++ ((ips.filter (fun ip => (alistGet existing ip).isNone)).map CFRequest.post)

/-- The error message the record-oriented adaptor wraps around a failing
mutation (cloudflare.go:81, cloudflare.go:96). -/
def cfWrapErr : CFRequest → String → String
  | .delete recordID ip, e =>
    "error deleting record " ++ recordID ++ " for IP " ++ ip ++ ": " ++ e
  | .post ip, e => "error creating record for IP " ++ ip ++ ": " ++ e

/-- Modelled from the spec (§4.3, "On any failure, abort with that error"):
issue a list of requests in order, stopping at the first failure and returning
its (wrapped) error. -/
def issueSequentially (oracle : CFRequest → Option String) :
    List CFRequest → List CFRequest × Option String
  | [] => ([], none)
  | r :: rest =>
    match oracle r with
    | some e => ([r], some (cfWrapErr r e))
    | none =>
      let t := issueSequentially oracle rest
      (r :: t.1, t.2)

/-- Lexicographic comparison of character lists, a total order on string
contents; used to model Go's `slices.Sort` on `[]string` (the reconciliation
logic only depends on the sort being a sort, not on the particular order). -/
def charListLe : List Char → List Char → Bool
  | [], _ => true
  | _ :: _, [] => false
  | a :: as, b :: bs =>
    if a < b then true
    else if b < a then false
    else charListLe as bs

/-- The order `sortIPs` sorts by. -/
def strLe (a b : String) : Prop := charListLe a.data b.data = true

instance : DecidableRel strLe := fun a b => by
  unfold strLe
  infer_instance

/-- Model of `slices.Sort` on a `[]string` (azure adaptor, line 139-140):
sorts the list in place; modelled as a pure sorting function whose result is
the slice's content after the call. -/
def sortIPs (l : List String) : List String :=
  List.insertionSort strLe l

/-- A mutating API request of the record-set-oriented (Azure) adaptor. -/
inductive AzRequest where
  | put (ips : List String) (ttl : Int)
  | delete
deriving DecidableEq, Repr

/-- Outcome of one `AzureProvider.UpdateRecords` call: the mutating requests
issued, the call's result, and the content of the caller's `ips` slice and of
the local `currentIPs` slice after the call (the code sorts both in place in
the comparison branch). -/
structure AzureOutcome where
  requests : List AzRequest
  err : Option String
  ipsAfter : List String
  currentAfter : List String
deriving DecidableEq, Repr

/-- Model of `AzureProvider.UpdateRecords` (src/unnamed/part_005:109-155)
after the initial GET: `currentIPs` is what `getExistingIPs` returned, `ips`
the desired IPs, `oracle` the outcome of each mutating request.

The code: with no desired IPs it deletes the record (no-op success if there is
no current record); otherwise it compares the two lists — sorting both in
place when their lengths match — and issues a single PUT of the (possibly
sorted) desired list only when they differ. -/
def azureUpdateRecords (currentIPs : List String) (ips : List String)
    (ttl : Int) (oracle : AzRequest → Option String) : AzureOutcome :=
  if ips.length = 0 then
    if currentIPs.length = 0 then ⟨[], none, ips, currentIPs⟩
    else
      match oracle .delete with
      | some e => ⟨[.delete], some ("error deleting record: " ++ e), ips, currentIPs⟩
      | none => ⟨[.delete], none, ips, currentIPs⟩
  else if ips.length ≠ currentIPs.length then
    match oracle (.put ips ttl) with
    | some e =>
      ⟨[.put ips ttl], some ("error creating/updating record: " ++ e), ips, currentIPs⟩
    | none => ⟨[.put ips ttl], none, ips, currentIPs⟩
  else
    let ips2 := sortIPs ips
    let cur2 := sortIPs currentIPs
    if ips2 = cur2 then ⟨[], none, ips2, cur2⟩
    else
      match oracle (.put ips2 ttl) with
      | some e =>
        ⟨[.put ips2 ttl], some ("error creating/updating record: " ++ e), ips2, cur2⟩
      | none => ⟨[.put ips2 ttl], none, ips2, cur2⟩

theorem alistGet_cons {β : Type} (e : String × β) (m : List (String × β))
    (k : String) :
    alistGet (e :: m) k = if e.1 = k then some e.2 else alistGet m k := by
  by_cases h : e.1 = k
  · simp [alistGet, List.find?_cons_of_pos, h]
  · simp only [alistGet, List.find?_cons_of_neg, h, beq_iff_eq, not_false_iff,
      if_false]

theorem alistGet_filter_ne {β : Type} (m : List (String × β)) (k k' : String)
    (h : k' ≠ k) :
    alistGet (m.filter (fun e => e.1 != k)) k' = alistGet m k' := by
  induction m with
  | nil => rfl
  | cons e rest ih =>
    by_cases he : e.1 = k
    · rw [List.filter_cons, if_neg (by simp [he]), alistGet_cons,
        if_neg (by rw [he]; exact fun hh => h hh.symm)]
      exact ih
    · rw [List.filter_cons, if_pos (by simp [he]), alistGet_cons, alistGet_cons]
      by_cases hk' : e.1 = k'
      · simp [hk']
      · rw [if_neg hk', if_neg hk']
        exact ih

theorem alistGet_set_self {β : Type} (m : List (String × β)) (k : String)
    (v : β) : alistGet (alistSet m k v) k = some v := by
  simp [alistSet, alistGet_cons]

theorem alistGet_set_ne {β : Type} (m : List (String × β)) (k k' : String)
    (v : β) (h : k' ≠ k) : alistGet (alistSet m k v) k' = alistGet m k' := by
  rw [alistSet, alistGet_cons, if_neg (fun hh => h hh.symm)]
  exact alistGet_filter_ne m k k' h

theorem alistGet_del_self {β : Type} (m : List (String × β)) (k : String) :
    alistGet (alistDel m k) k = none := by
  induction m with
  | nil => rfl
  | cons e rest ih =>
    by_cases he : e.1 = k
    · rw [alistDel, List.filter_cons, if_neg (by simp [he])]
      exact ih
    · rw [alistDel, List.filter_cons, if_pos (by simp [he]), alistGet_cons,
        if_neg he]
      exact ih

theorem alistGet_del_ne {β : Type} (m : List (String × β)) (k k' : String)
    (h : k' ≠ k) : alistGet (alistDel m k) k' = alistGet m k' :=
  alistGet_filter_ne m k k' h

theorem alistGetD_set_self (m : List (String × Int)) (k : String) (v : Int) :
    alistGetD (alistSet m k v) k = v := by
  simp [alistGetD, alistGet_set_self]

theorem alistGetD_set_ne (m : List (String × Int)) (k k' : String) (v : Int)
    (h : k' ≠ k) : alistGetD (alistSet m k v) k' = alistGetD m k' := by
  simp [alistGetD, alistGet_set_ne m k k' v h]

theorem alistGetD_del_ne (m : List (String × Int)) (k k' : String)
    (h : k' ≠ k) : alistGetD (alistDel m k) k' = alistGetD m k' := by
  simp [alistGetD, alistGet_del_ne m k k' h]

theorem incrFailedCount_of_lt (c : Int) (h0 : 0 ≤ c) (h1 : c < goMaxInt) :
    incrFailedCount c = c + 1 := by
  have hgm : goMaxInt = 9223372036854775807 := rfl
  have hmod : (c + 1 + 9223372036854775808) % 18446744073709551616
      = c + 1 + 9223372036854775808 :=
    Int.emod_eq_of_lt (by omega) (by omega)
  simp only [incrFailedCount, goWrap64, hmod]
  rw [if_neg (by omega)]
  omega

theorem incrFailedCount_max : incrFailedCount goMaxInt = goMaxInt := by decide

theorem collectHealthy_not_mem (k : Int) (cur : List String) (ip : String)
    (rs : List (String × Bool)) :
    ∀ (acc : List String) (f : List (String × Int)),
      ip ∉ rs.map Prod.fst →
      (ip ∈ (collectHealthy k cur rs acc f).1 ↔ ip ∈ acc) ∧
        alistGet (collectHealthy k cur rs acc f).2 ip = alistGet f ip := by
  induction rs with
  | nil => exact fun acc f _ => ⟨Iff.rfl, rfl⟩
  | cons e rest ih =>
    intro acc f h
    obtain ⟨j, hj⟩ := e
    rw [List.map_cons, List.mem_cons, not_or] at h
    obtain ⟨hji, hrest⟩ := h
    cases hj with
    | true =>
      simp only [collectHealthy, if_pos]
      obtain ⟨h1, h2⟩ := ih (acc ++ [j]) (alistDel f j) hrest
      refine ⟨h1.trans ?_, h2.trans (alistGet_del_ne f j ip hji)⟩
      simp [hji]
    | false =>
      simp only [collectHealthy, Bool.false_eq_true, if_neg, not_false_iff]
      by_cases hc : incrFailedCount (alistGetD f j) < k ∧ j ∈ cur
      · rw [if_pos hc]
        obtain ⟨h1, h2⟩ :=
          ih (acc ++ [j]) (alistSet f j (incrFailedCount (alistGetD f j))) hrest
        refine ⟨h1.trans ?_, h2.trans (alistGet_set_ne f j ip _ hji)⟩
        simp [hji]
      · rw [if_neg hc]
        obtain ⟨h1, h2⟩ :=
          ih acc (alistSet f j (incrFailedCount (alistGetD f j))) hrest
        exact ⟨h1, h2.trans (alistGet_set_ne f j ip _ hji)⟩

theorem collectHealthy_mem (k : Int) (cur : List String) (ip : String)
    (b : Bool) (rs : List (String × Bool)) :
    ∀ (acc : List String) (f : List (String × Int)),
      (ip, b) ∈ rs → (rs.map Prod.fst).Nodup → ip ∉ acc →
      (ip ∈ (collectHealthy k cur rs acc f).1 ↔
          (b = true ∨ (b = false ∧ ip ∈ cur ∧
            incrFailedCount (alistGetD f ip) < k))) ∧
        alistGet (collectHealthy k cur rs acc f).2 ip =
          (if b then none else some (incrFailedCount (alistGetD f ip))) := by
  induction rs with
  | nil => exact fun acc f hmem => absurd hmem (List.not_mem_nil _)
  | cons e rest ih =>
    intro acc f hmem hnd hacc
    obtain ⟨j, hj⟩ := e
    rw [List.map_cons, List.nodup_cons] at hnd
    obtain ⟨hjrest, hndrest⟩ := hnd
    rcases List.mem_cons.mp hmem with heq | hmem'
    · obtain ⟨rfl, rfl⟩ := Prod.mk.injEq .. ▸ And.intro (congrArg Prod.fst heq).symm (congrArg Prod.snd heq).symm
      cases b with
      | true =>
        simp only [collectHealthy, if_pos]
        obtain ⟨h1, h2⟩ :=
          collectHealthy_not_mem k cur ip rest (acc ++ [ip]) (alistDel f ip) hjrest
        refine ⟨h1.trans ?_, h2.trans (alistGet_del_self f ip) |>.trans (by simp)⟩
        simp
      | false =>
        simp only [collectHealthy, Bool.false_eq_true, if_neg, not_false_iff]
        by_cases hc : incrFailedCount (alistGetD f ip) < k ∧ ip ∈ cur
        · rw [if_pos hc]
          obtain ⟨h1, h2⟩ := collectHealthy_not_mem k cur ip rest (acc ++ [ip])
            (alistSet f ip (incrFailedCount (alistGetD f ip))) hjrest
          refine ⟨h1.trans ?_, h2.trans (alistGet_set_self f ip _) |>.trans (by simp)⟩
          simp
          tauto
        · rw [if_neg hc]
          obtain ⟨h1, h2⟩ := collectHealthy_not_mem k cur ip rest acc
            (alistSet f ip (incrFailedCount (alistGetD f ip))) hjrest
          refine ⟨h1.trans ?_, h2.trans (alistGet_set_self f ip _) |>.trans (by simp)⟩
          simp only [Bool.false_eq_true, false_or, iff_false_intro hacc]
          tauto
    · have hip : ip ∈ rest.map Prod.fst := List.mem_map.mpr ⟨(ip, b), hmem', rfl⟩
      have hji : j ≠ ip := fun hh => hjrest (hh ▸ hip)
      have hipj : ip ≠ j := fun hh => hji hh.symm
      cases hj with
      | true =>
        simp only [collectHealthy, if_pos]
        have hacc' : ip ∉ acc ++ [j] := by simp [hacc, hipj]
        obtain ⟨h1, h2⟩ := ih (acc ++ [j]) (alistDel f j) hmem' hndrest hacc'
        rw [alistGetD_del_ne f j ip hipj] at h1 h2
        exact ⟨h1, h2⟩
      | false =>
        simp only [collectHealthy, Bool.false_eq_true, if_neg, not_false_iff]
        by_cases hc : incrFailedCount (alistGetD f j) < k ∧ j ∈ cur
        · rw [if_pos hc]
          have hacc' : ip ∉ acc ++ [j] := by simp [hacc, hipj]
          obtain ⟨h1, h2⟩ := ih (acc ++ [j])
            (alistSet f j (incrFailedCount (alistGetD f j))) hmem' hndrest hacc'
          rw [alistGetD_set_ne f j ip _ hipj] at h1 h2
          exact ⟨h1, h2⟩
        · rw [if_neg hc]
          obtain ⟨h1, h2⟩ := ih acc
            (alistSet f j (incrFailedCount (alistGetD f j))) hmem' hndrest hacc
          rw [alistGetD_set_ne f j ip _ hipj] at h1 h2
          exact ⟨h1, h2⟩

theorem checkAndUpdate_commit (k : Int) (s : DomainState)
    (rs : List (String × Bool)) (now : Nat) :
    (checkAndUpdateDNSDomain k s rs none now).1.healthyIPs
        = (collectHealthy k s.healthyIPs rs [] s.failedIPs).1 ∧
      (checkAndUpdateDNSDomain k s rs none now).1.failedIPs
        = (collectHealthy k s.healthyIPs rs [] s.failedIPs).2 ∧
      (checkAndUpdateDNSDomain k s rs none now).1.lastError = "" := by
  simp only [checkAndUpdateDNSDomain]
  split
  · exact ⟨rfl, rfl, rfl⟩
  · split
    · exact ⟨rfl, rfl, rfl⟩
    · exact ⟨rfl, rfl, rfl⟩

theorem ElementsMatch_length (a b : List String) :
    ElementsMatch a b = true → a.length = b.length := by
  intro h
  by_contra hne
  rw [ElementsMatch, if_pos (by simpa using hne)] at h
  simp at h

theorem errPrefix_append_ne (msg : String) :
    ("Error updating DNS records: " ++ msg) ≠ "" := by
  intro h
  have hl := congrArg String.length h
  rw [String.length_append] at hl
  have h28 : ("Error updating DNS records: " : String).length = 28 := by decide
  have h0 : ("" : String).length = 0 := by decide
  omega

/-- C1 (Grace debouncing): after a reconciliation tick whose provider call, if
any, succeeds, an IP with probe outcome `b` is in the stored published
(healthy) set iff either its probe succeeded, or it failed but was published
entering the tick and its stored consecutive-failure count including this tick
is still below the policy's `attempts`. -/
theorem grace_debouncing_published_iff (k : Int) (s : DomainState)
    (results : List (String × Bool)) (now : Nat) (ip : String) (b : Bool)
    (hmem : (ip, b) ∈ results) (hnd : (results.map Prod.fst).Nodup) :
    ip ∈ (checkAndUpdateDNSDomain k s results none now).1.healthyIPs ↔
      (b = true ∨ (b = false ∧ ip ∈ s.healthyIPs ∧
        alistGetD (checkAndUpdateDNSDomain k s results none now).1.failedIPs ip
          < k)) := by
  obtain ⟨hH, hF, -⟩ := checkAndUpdate_commit k s results now
  obtain ⟨h1, h2⟩ := collectHealthy_mem k s.healthyIPs ip b results []
    s.failedIPs hmem hnd (List.not_mem_nil ip)
  cases b with
  | true =>
    rw [hH, h1]
    simp
  | false =>
    have hgd : alistGetD
        (collectHealthy k s.healthyIPs results [] s.failedIPs).2 ip
        = incrFailedCount (alistGetD s.failedIPs ip) := by
      rw [alistGetD, h2]
      rfl
    rw [hH, hF, h1, hgd]

/-- Witness for C1 at a concrete tick: one previously-published IP fails once
with `attempts = 2` and stays published in grace. -/
theorem grace_debouncing_published_iff_witness :
    "1.1.1.1" ∈ (checkAndUpdateDNSDomain 2 ⟨["1.1.1.1"], [], 0, ""⟩
        [("1.1.1.1", false)] none 1).1.healthyIPs ↔
      (false = true ∨ (false = false ∧ "1.1.1.1" ∈ ["1.1.1.1"] ∧
        alistGetD (checkAndUpdateDNSDomain 2 ⟨["1.1.1.1"], [], 0, ""⟩
          [("1.1.1.1", false)] none 1).1.failedIPs "1.1.1.1" < 2)) :=
  grace_debouncing_published_iff 2 ⟨["1.1.1.1"], [], 0, ""⟩
    [("1.1.1.1", false)] 1 "1.1.1.1" false (by decide) (by decide)

/-- C2 (Provider-failure atomicity): on a tick that calls `UpdateRecords` and
gets an error back, the stored published set and failure counts are exactly
what they were before the tick, and `lastError` is set to a non-empty
message. -/
theorem provider_failure_preserves_state (k : Int) (s : DomainState)
    (results : List (String × Bool)) (msg : String) (now : Nat)
    (hcall : (checkAndUpdateDNSDomain k s results (some msg) now).2 ≠ none) :
    (checkAndUpdateDNSDomain k s results (some msg) now).1.healthyIPs
        = s.healthyIPs ∧
      (checkAndUpdateDNSDomain k s results (some msg) now).1.failedIPs
        = s.failedIPs ∧
      (checkAndUpdateDNSDomain k s results (some msg) now).1.lastError ≠ "" := by
  simp only [checkAndUpdateDNSDomain] at hcall ⊢
  by_cases hEM : ElementsMatch s.healthyIPs
      (collectHealthy k s.healthyIPs results [] s.failedIPs).1 = true
  · rw [if_pos hEM] at hcall
    simp at hcall
  · rw [if_neg hEM] at hcall ⊢
    by_cases hlen :
        (collectHealthy k s.healthyIPs results [] s.failedIPs).1.length > 0
    · rw [if_pos hlen]
      exact ⟨rfl, rfl, errPrefix_append_ne msg⟩
    · rw [if_neg hlen] at hcall
      simp at hcall

/-- Witness for C2: two published IPs, one fails definitively, the provider
call errors; the stored state keeps both IPs. -/
theorem provider_failure_preserves_state_witness :
    (checkAndUpdateDNSDomain 1 ⟨["1.1.1.1", "2.2.2.2"], [], 0, ""⟩
        [("1.1.1.1", false), ("2.2.2.2", true)] (some "boom") 9).1.healthyIPs
      = ["1.1.1.1", "2.2.2.2"] ∧
    (checkAndUpdateDNSDomain 1 ⟨["1.1.1.1", "2.2.2.2"], [], 0, ""⟩
        [("1.1.1.1", false), ("2.2.2.2", true)] (some "boom") 9).1.failedIPs
      = [] ∧
    (checkAndUpdateDNSDomain 1 ⟨["1.1.1.1", "2.2.2.2"], [], 0, ""⟩
        [("1.1.1.1", false), ("2.2.2.2", true)] (some "boom") 9).1.lastError
      ≠ "" :=
  provider_failure_preserves_state 1 ⟨["1.1.1.1", "2.2.2.2"], [], 0, ""⟩
    [("1.1.1.1", false), ("2.2.2.2", true)] "boom" 9 (by decide)

/-- C3 (All-down preservation): the reconciler never calls `UpdateRecords`
with an empty IP list; and on a tick whose computed healthy set is empty while
the stored published set was non-empty, the provider is not called and the
stored published set is committed to the empty list. -/
theorem all_down_no_provider_call (k : Int) (s : DomainState)
    (results : List (String × Bool)) (err : Option String) (now : Nat) :
    (∀ ips, (checkAndUpdateDNSDomain k s results err now).2 = some ips →
        ips ≠ []) ∧
      ((collectHealthy k s.healthyIPs results [] s.failedIPs).1 = [] →
        s.healthyIPs ≠ [] →
        (checkAndUpdateDNSDomain k s results err now).2 = none ∧
          (checkAndUpdateDNSDomain k s results err now).1.healthyIPs = []) := by
  constructor
  · intro ips hips
    simp only [checkAndUpdateDNSDomain] at hips
    by_cases hEM : ElementsMatch s.healthyIPs
        (collectHealthy k s.healthyIPs results [] s.failedIPs).1 = true
    · rw [if_pos hEM] at hips
      simp at hips
    · rw [if_neg hEM] at hips
      by_cases hlen :
          (collectHealthy k s.healthyIPs results [] s.failedIPs).1.length > 0
      · rw [if_pos hlen] at hips
        cases err with
        | some m =>
          simp only [Option.some.injEq] at hips
          subst hips
          exact List.ne_nil_of_length_pos hlen
        | none =>
          simp only [Option.some.injEq] at hips
          subst hips
          exact List.ne_nil_of_length_pos hlen
      · rw [if_neg hlen] at hips
        simp at hips
  · intro hempty hne
    simp only [checkAndUpdateDNSDomain]
    have hEM : ¬ ElementsMatch s.healthyIPs
        (collectHealthy k s.healthyIPs results [] s.failedIPs).1 = true := by
      intro h
      have := ElementsMatch_length _ _ h
      rw [hempty] at this
      exact hne (List.length_eq_zero.mp this)
    rw [if_neg hEM, hempty]
    rw [if_neg (by simp)]
    exact ⟨rfl, rfl⟩

/-- Witness for C3: one published endpoint fails beyond `attempts = 1`; the
provider is not called and the stored set becomes empty. -/
theorem all_down_no_provider_call_witness :
    (checkAndUpdateDNSDomain 1 ⟨["1.1.1.1"], [], 0, ""⟩ [("1.1.1.1", false)]
        none 3).2 = none ∧
      (checkAndUpdateDNSDomain 1 ⟨["1.1.1.1"], [], 0, ""⟩ [("1.1.1.1", false)]
        none 3).1.healthyIPs = [] :=
  (all_down_no_provider_call 1 ⟨["1.1.1.1"], [], 0, ""⟩ [("1.1.1.1", false)]
    none 3).2 (by decide) (by decide)

/-- C7 (Failure-count saturation): within a committed tick, a successful probe
removes the IP's failure counter, a failed probe increments it by one while
below `math.MaxInt`, and a failed probe starting from `math.MaxInt` leaves the
counter at `math.MaxInt` instead of wrapping to a negative value. -/
theorem failure_count_saturation :
    (∀ (k : Int) (s : DomainState) (results : List (String × Bool)) (now : Nat)
        (ip : String), (ip, true) ∈ results → (results.map Prod.fst).Nodup →
        alistGet (checkAndUpdateDNSDomain k s results none now).1.failedIPs ip
          = none) ∧
      (∀ (k : Int) (s : DomainState) (results : List (String × Bool))
        (now : Nat) (ip : String) (c : Int), (ip, false) ∈ results →
        (results.map Prod.fst).Nodup → alistGetD s.failedIPs ip = c →
        0 ≤ c → c < goMaxInt →
        alistGetD (checkAndUpdateDNSDomain k s results none now).1.failedIPs ip
          = c + 1) ∧
      (∀ (k : Int) (s : DomainState) (results : List (String × Bool))
        (now : Nat) (ip : String), (ip, false) ∈ results →
        (results.map Prod.fst).Nodup → alistGetD s.failedIPs ip = goMaxInt →
        alistGetD (checkAndUpdateDNSDomain k s results none now).1.failedIPs ip
          = goMaxInt) := by
  refine ⟨?_, ?_, ?_⟩
  · intro k s results now ip hmem hnd
    obtain ⟨-, hF, -⟩ := checkAndUpdate_commit k s results now
    obtain ⟨-, h2⟩ := collectHealthy_mem k s.healthyIPs ip true results []
      s.failedIPs hmem hnd (List.not_mem_nil ip)
    rw [hF, h2]
    rfl
  · intro k s results now ip c hmem hnd hc h0 h1
    obtain ⟨-, hF, -⟩ := checkAndUpdate_commit k s results now
    obtain ⟨-, h2⟩ := collectHealthy_mem k s.healthyIPs ip false results []
      s.failedIPs hmem hnd (List.not_mem_nil ip)
    rw [hF, alistGetD, h2]
    simp only [if_neg (by simp : ¬ false = true), Option.getD_some]
    rw [hc, incrFailedCount_of_lt c h0 h1]
  · intro k s results now ip hmem hnd hc
    obtain ⟨-, hF, -⟩ := checkAndUpdate_commit k s results now
    obtain ⟨-, h2⟩ := collectHealthy_mem k s.healthyIPs ip false results []
      s.failedIPs hmem hnd (List.not_mem_nil ip)
    rw [hF, alistGetD, h2]
    simp only [if_neg (by simp : ¬ false = true), Option.getD_some]
    rw [hc, incrFailedCount_max]

/-- Witness for C7: reset after success, 3 → 4 after one more failure, and
`math.MaxInt` stays `math.MaxInt` after one more failure. -/
theorem failure_count_saturation_witness :
    alistGet (checkAndUpdateDNSDomain 2 ⟨[], [("1.1.1.1", 3)], 0, ""⟩
        [("1.1.1.1", true)] none 1).1.failedIPs "1.1.1.1" = none ∧
      alistGetD (checkAndUpdateDNSDomain 2 ⟨[], [("1.1.1.1", 3)], 0, ""⟩
        [("1.1.1.1", false)] none 1).1.failedIPs "1.1.1.1" = 4 ∧
      alistGetD (checkAndUpdateDNSDomain 2
        ⟨[], [("1.1.1.1", goMaxInt)], 0, ""⟩
        [("1.1.1.1", false)] none 1).1.failedIPs "1.1.1.1" = goMaxInt :=
  ⟨failure_count_saturation.1 2 ⟨[], [("1.1.1.1", 3)], 0, ""⟩
      [("1.1.1.1", true)] 1 "1.1.1.1" (by decide) (by decide),
    (failure_count_saturation.2.1 2 ⟨[], [("1.1.1.1", 3)], 0, ""⟩
      [("1.1.1.1", false)] 1 "1.1.1.1" 3 (by decide) (by decide) (by decide)
      (by decide) (by decide)).trans (by norm_num),
    failure_count_saturation.2.2 2 ⟨[], [("1.1.1.1", goMaxInt)], 0, ""⟩
      [("1.1.1.1", false)] 1 "1.1.1.1" (by decide) (by decide) (by decide)⟩

theorem alistKeys_set_nodup {β : Type} (m : List (String × β)) (k : String)
    (v : β) (h : (alistKeys m).Nodup) : (alistKeys (alistSet m k v)).Nodup := by
  rw [alistSet, alistKeys, List.map_cons, List.nodup_cons]
  constructor
  · intro hmem
    obtain ⟨e, hef, hek⟩ := List.mem_map.mp hmem
    obtain ⟨-, hne⟩ := List.mem_filter.mp hef
    simp only [bne_iff_ne, ne_eq] at hne
    exact hne hek
  · exact (h.sublist (List.Sublist.map Prod.fst (List.filter_sublist m)))

theorem buildExistingIPs_keys_nodup_aux (records : List CFRecord) :
    ∀ (m : List (String × String)), (alistKeys m).Nodup →
      (alistKeys (records.foldl (fun m r => alistSet m r.content r.id) m)).Nodup := by
  induction records with
  | nil => exact fun m h => h
  | cons r rest ih =>
    intro m h
    exact ih (alistSet m r.content r.id) (alistKeys_set_nodup m r.content r.id h)

theorem buildExistingIPs_keys_nodup (records : List CFRecord) :
    (alistKeys (buildExistingIPs records)).Nodup :=
  buildExistingIPs_keys_nodup_aux records [] List.nodup_nil

theorem buildExistingIPs_isSome_aux (records : List CFRecord) (ip : String) :
    ∀ (m : List (String × String)),
      ((alistGet (records.foldl (fun m r => alistSet m r.content r.id) m) ip).isSome
        ↔ ip ∈ records.map CFRecord.content ∨ (alistGet m ip).isSome) := by
  induction records with
  | nil => simp
  | cons r rest ih =>
    intro m
    rw [List.foldl_cons, ih (alistSet m r.content r.id), List.map_cons,
      List.mem_cons]
    by_cases hr : ip = r.content
    · subst hr
      rw [alistGet_set_self]
      simp
    · rw [alistGet_set_ne m r.content ip r.id hr]
      simp only [eq_comm (a := ip)] at hr
      tauto

theorem buildExistingIPs_isSome (records : List CFRecord) (ip : String) :
    (alistGet (buildExistingIPs records) ip).isSome
      ↔ ip ∈ records.map CFRecord.content := by
  rw [buildExistingIPs, buildExistingIPs_isSome_aux records ip []]
  simp [alistGet]

theorem alistGet_isSome_of_mem {β : Type} (m : List (String × β))
    (e : String × β) (h : e ∈ m) : (alistGet m e.1).isSome := by
  induction m with
  | nil => exact absurd h (List.not_mem_nil e)
  | cons e' rest ih =>
    rw [alistGet_cons]
    by_cases he : e'.1 = e.1
    · simp [he]
    · rw [if_neg he]
      rcases List.mem_cons.mp h with rfl | hm
    -- the head case contradicts he
      · exact absurd rfl he
      · exact ih hm

theorem alistGet_eq_some_iff {β : Type} (m : List (String × β))
    (hm : (alistKeys m).Nodup) (k : String) (v : β) :
    alistGet m k = some v ↔ (k, v) ∈ m := by
  induction m with
  | nil => simp [alistGet]
  | cons e rest ih =>
    rw [alistKeys, List.map_cons, List.nodup_cons] at hm
    obtain ⟨hk, hnd⟩ := hm
    rw [alistGet_cons, List.mem_cons]
    by_cases he : e.1 = k
    · rw [if_pos he]
      constructor
      · intro hv
        left
        obtain ⟨e1, e2⟩ := e
        simp only at he
        simp only [Option.some.injEq] at hv
        rw [he, hv]
      · rintro (rfl | hmem)
        · rfl
        · exact absurd (List.mem_map.mpr ⟨(k, v), hmem, rfl⟩) (he ▸ hk)
    · rw [if_neg he, ih hnd]
      constructor
      · exact Or.inr
      · rintro (rfl | hmem)
        · exact absurd rfl he
        · exact hmem

theorem cfDeletePhase_eq (oracle : CFRequest → Option String)
    (ips : List String) :
    ∀ (ex : List (String × String)),
      cfDeletePhase oracle ips ex
        = issueSequentially oracle
            ((ex.filter (fun e => e.1 ∉ ips)).map
              (fun e => CFRequest.delete e.2 e.1)) := by
  intro ex
  induction ex with
  | nil => rfl
  | cons e rest ih =>
    obtain ⟨ip, recordID⟩ := e
    rw [List.filter_cons]
    by_cases hip : ip ∈ ips
    · rw [if_neg (by simpa using hip)]
      simp only [cfDeletePhase]
      rw [if_pos hip]
      exact ih
    · rw [if_pos (by simpa using hip), List.map_cons]
      simp only [cfDeletePhase, issueSequentially]
      rw [if_neg hip]
      cases horacle : oracle (.delete recordID ip) with
      | some e => rfl
      | none => rw [ih]

theorem cfCreatePhase_eq (oracle : CFRequest → Option String)
    (ex : List (String × String)) :
    ∀ (ips : List String),
      cfCreatePhase oracle ex ips
        = issueSequentially oracle
            ((ips.filter (fun ip => (alistGet ex ip).isNone)).map
              CFRequest.post) := by
  intro ips
  induction ips with
  | nil => rfl
  | cons ip rest ih =>
    rw [List.filter_cons]
    by_cases hip : (alistGet ex ip).isSome
    · rw [if_neg (by
        intro h
        rw [Option.isNone_iff_eq_none] at h
        rw [h] at hip
        simp at hip)]
      simp only [cfCreatePhase]
      rw [if_pos hip]
      exact ih
    · rw [if_pos (by
        rw [Option.isNone_iff_eq_none]
        exact Option.not_isSome_iff_eq_none.mp hip), List.map_cons]
      simp only [cfCreatePhase, issueSequentially]
      rw [if_neg hip]
      cases horacle : oracle (.post ip) with
      | some e => rfl
      | none => rw [ih]

theorem issueSequentially_append (oracle : CFRequest → Option String)
    (l1 l2 : List CFRequest) :
    issueSequentially oracle (l1 ++ l2)
      = match (issueSequentially oracle l1).2 with
        | some e => ((issueSequentially oracle l1).1, some e)
        | none => ((issueSequentially oracle l1).1
            ++ (issueSequentially oracle l2).1,
            (issueSequentially oracle l2).2) := by
  induction l1 with
  | nil => simp [issueSequentially]
  | cons r rest ih =>
    rw [List.cons_append]
    simp only [issueSequentially]
    cases oracle r with
    | some e => rfl
    | none =>
      rw [ih]
      cases hres : (issueSequentially oracle rest).2 with
      | some e => rfl
      | none => simp

theorem issueSequentially_ok (l : List CFRequest) :
    issueSequentially (fun _ => none) l = (l, none) := by
  induction l with
  | nil => rfl
  | cons r rest ih =>
    simp only [issueSequentially]
    rw [ih]

theorem cloudflareUpdateRecords_eq_issueSequentially (records : List CFRecord)
    (ips : List String) (oracle : CFRequest → Option String) :
    cloudflareUpdateRecords records ips oracle
      = issueSequentially oracle (cfPlannedRequests records ips) := by
  simp only [cloudflareUpdateRecords, cfPlannedRequests]
  rw [cfDeletePhase_eq, cfCreatePhase_eq, issueSequentially_append]

theorem unifiUpdateRecords_eq (records : List CFRecord) (ips : List String)
    (oracle : CFRequest → Option String) :
    unifiUpdateRecords records ips oracle
      = cloudflareUpdateRecords records ips oracle := rfl

/-- True of the DELETE requests of a record-oriented adaptor. -/
def isDeleteReq : CFRequest → Bool
  | .delete _ _ => true
  | .post _ => false

/-- True of the POST requests of a record-oriented adaptor. -/
def isPostReq : CFRequest → Bool
  | .delete _ _ => false
  | .post _ => true

theorem cfPlanned_deletes_before_posts (records : List CFRecord)
    (ips : List String) :
    (((cfPlannedRequests records ips).dropWhile isDeleteReq).all isPostReq)
      = true := by
  rw [cfPlannedRequests]
  generalize ((buildExistingIPs records).filter (fun e => e.1 ∉ ips)) = dels
  generalize (ips.filter (fun ip => (alistGet (buildExistingIPs records) ip).isNone)) = posts
  induction dels with
  | nil =>
    rw [List.map_nil, List.nil_append]
    cases posts with
    | nil => rfl
    | cons p ps =>
      rw [List.map_cons, List.dropWhile_cons]
      simp only [isDeleteReq, Bool.false_eq_true, if_neg, not_false_iff]
      simp [List.all_eq_true, isPostReq]
  | cons d ds ih =>
    rw [List.map_cons, List.cons_append, List.dropWhile_cons]
    simp only [isDeleteReq, if_pos]
    exact ih

theorem count_eq_zero_of_not_mem_decEq {α : Type} [DecidableEq α] {a : α}
    {l : List α} (h : a ∉ l) : l.count a = 0 :=
  List.count_eq_zero.mpr h

theorem cfPlanned_count_post (records : List CFRecord) (ips : List String)
    (hips : ips.Nodup) (ip : String) :
    (cfPlannedRequests records ips).count (CFRequest.post ip)
      = if ip ∈ ips ∧ (alistGet (buildExistingIPs records) ip).isNone
        then 1 else 0 := by
  rw [cfPlannedRequests, List.count_append]
  have hdel : (((buildExistingIPs records).filter (fun e => e.1 ∉ ips)).map
      (fun e => CFRequest.delete e.2 e.1)).count (CFRequest.post ip) = 0 := by
    rw [List.count_eq_zero]
    intro hmem
    obtain ⟨e, -, he⟩ := List.mem_map.mp hmem
    exact CFRequest.noConfusion he
  rw [hdel, Nat.zero_add]
  have hinj : Function.Injective CFRequest.post := fun a b h => by
    injection h
  rw [List.count_map_of_injective _ CFRequest.post hinj ip]
  by_cases hm : ip ∈ ips.filter
      (fun ip => (alistGet (buildExistingIPs records) ip).isNone)
  · rw [List.count_eq_one_of_mem (hips.filter _) hm,
      if_pos (by simpa [List.mem_filter] using hm)]
  · rw [List.count_eq_zero_of_not_mem hm,
      if_neg (by simpa [List.mem_filter] using hm)]

theorem cfPlanned_count_delete (records : List CFRecord) (ips : List String)
    (ip rid : String) :
    (cfPlannedRequests records ips).count (CFRequest.delete rid ip)
      = if alistGet (buildExistingIPs records) ip = some rid ∧ ip ∉ ips
        then 1 else 0 := by
  rw [cfPlannedRequests, List.count_append]
  have hpost : ((ips.filter
      (fun ip => (alistGet (buildExistingIPs records) ip).isNone)).map
      CFRequest.post).count (CFRequest.delete rid ip) = 0 := by
    rw [List.count_eq_zero]
    intro hmem
    obtain ⟨e, -, he⟩ := List.mem_map.mp hmem
    exact CFRequest.noConfusion he
  rw [hpost, Nat.add_zero]
  have hinj : Function.Injective
      (fun (e : String × String) => CFRequest.delete e.2 e.1) := by
    intro a b h
    injection h with h2 h1
    exact Prod.ext h1 h2
  have hcnt := List.count_map_of_injective
    ((buildExistingIPs records).filter (fun e => e.1 ∉ ips))
    (fun (e : String × String) => CFRequest.delete e.2 e.1) hinj (ip, rid)
  rw [hcnt]
  have hexnd : ((buildExistingIPs records).filter
      (fun e => e.1 ∉ ips)).Nodup :=
    ((buildExistingIPs_keys_nodup records).of_map).filter _
  by_cases hm : (ip, rid) ∈ (buildExistingIPs records).filter
      (fun e => e.1 ∉ ips)
  · rw [List.count_eq_one_of_mem hexnd hm]
    obtain ⟨hmem, hnin⟩ := List.mem_filter.mp hm
    rw [if_pos ⟨(alistGet_eq_some_iff _ (buildExistingIPs_keys_nodup records)
      ip rid).mpr hmem, by simpa using hnin⟩]
  · rw [if_neg (fun hand => hm (List.mem_filter.mpr
      ⟨(alistGet_eq_some_iff _ (buildExistingIPs_keys_nodup records)
        ip rid).mp hand.1, by simpa using hand.2⟩))]
    exact count_eq_zero_of_not_mem_decEq hm

/-- C4 (amended: the desired IP list is duplicate-free): the record-oriented
`UpdateRecords` of the Cloudflare and Unifi adaptors behaves as the sequential
issuing of a planned request list consisting of exactly one DELETE for each
existing IP not desired followed by exactly one POST for each desired IP not
existing (so `|existing tri desired|` mutating requests in total on success,
every DELETE before any POST), and the first failing mutation aborts the call
with that error. -/
theorem minimum_diff_record_oriented (records : List CFRecord)
    (ips : List String) (oracle : CFRequest → Option String)
    (hips : ips.Nodup) :
    cloudflareUpdateRecords records ips oracle
        = issueSequentially oracle (cfPlannedRequests records ips) ∧
      unifiUpdateRecords records ips oracle
        = cloudflareUpdateRecords records ips oracle ∧
      cloudflareUpdateRecords records ips (fun _ => none)
        = (cfPlannedRequests records ips, none) ∧
      (cfPlannedRequests records ips).length
        = ((buildExistingIPs records).filter (fun e => e.1 ∉ ips)).length
          + (ips.filter
              (fun ip => (alistGet (buildExistingIPs records) ip).isNone)).length ∧
      (∀ ip, (cfPlannedRequests records ips).count (CFRequest.post ip)
        = if ip ∈ ips ∧ (alistGet (buildExistingIPs records) ip).isNone
          then 1 else 0) ∧
      (∀ ip rid,
        (cfPlannedRequests records ips).count (CFRequest.delete rid ip)
          = if alistGet (buildExistingIPs records) ip = some rid ∧ ip ∉ ips
            then 1 else 0) ∧
      (((cfPlannedRequests records ips).dropWhile isDeleteReq).all isPostReq)
        = true :=
  ⟨cloudflareUpdateRecords_eq_issueSequentially records ips oracle,
    unifiUpdateRecords_eq records ips oracle,
    by rw [cloudflareUpdateRecords_eq_issueSequentially, issueSequentially_ok],
    by simp [cfPlannedRequests],
    fun ip => cfPlanned_count_post records ips hips ip,
    fun ip rid => cfPlanned_count_delete records ips ip rid,
    cfPlanned_deletes_before_posts records ips⟩

/-- Counterexample to C4 as stated: for the desired IP *list*
`["1.1.1.1", "1.1.1.1"]` against an empty provider state, the record-oriented
`UpdateRecords` issues two POSTs for the single IP in desired and not
existing, not exactly one (and 2 mutating requests where
`|existing tri desired| = 1`). -/
theorem minimum_diff_duplicate_counterexample :
    (cloudflareUpdateRecords [] ["1.1.1.1", "1.1.1.1"]
        (fun _ => none)).1.count (CFRequest.post "1.1.1.1") = 2 ∧
      (cloudflareUpdateRecords [] ["1.1.1.1", "1.1.1.1"]
        (fun _ => none)).2 = none := by
  decide

/-- Witness for C4 (amended) at a concrete input: one stale record is deleted
and one missing record is created, delete first. -/
theorem minimum_diff_record_oriented_witness :
    cloudflareUpdateRecords [⟨"r1", "1.1.1.1"⟩, ⟨"r2", "3.3.3.3"⟩]
        ["1.1.1.1", "2.2.2.2"] (fun _ => none)
      = ([CFRequest.delete "r2" "3.3.3.3", CFRequest.post "2.2.2.2"], none) :=
  ((minimum_diff_record_oriented [⟨"r1", "1.1.1.1"⟩, ⟨"r2", "3.3.3.3"⟩]
    ["1.1.1.1", "2.2.2.2"] (fun _ => none) (by decide)).2.2.1).trans (by decide)

theorem charListLe_total : ∀ (as bs : List Char),
    charListLe as bs = true ∨ charListLe bs as = true := by
  intro as
  induction as with
  | nil => intro bs; left; rfl
  | cons a as ih =>
    intro bs
    cases bs with
    | nil => right; rfl
    | cons b bs =>
      rcases lt_trichotomy a b with h | h | h
      · left
        simp [charListLe, h]
      · subst h
        simp only [charListLe, lt_irrefl, if_neg, not_false_iff, if_false]
        exact ih bs
      · right
        simp [charListLe, h]

theorem charListLe_trans : ∀ (as bs cs : List Char),
    charListLe as bs = true → charListLe bs cs = true →
    charListLe as cs = true := by
  intro as
  induction as with
  | nil => intro bs cs _ _; rfl
  | cons a as ih =>
    intro bs cs h1 h2
    cases bs with
    | nil => simp [charListLe] at h1
    | cons b bs =>
      cases cs with
      | nil => simp [charListLe] at h2
      | cons c cs =>
        rcases lt_trichotomy a b with hab | hab | hab
        · rcases lt_trichotomy b c with hbc | hbc | hbc
          · simp [charListLe, lt_trans hab hbc]
          · subst hbc
            simp [charListLe, hab]
          · have hnbc : ¬ b < c := not_lt.mpr hbc.le
            simp [charListLe, hnbc, hbc] at h2
        · subst hab
          rcases lt_trichotomy a c with hbc | hbc | hbc
          · simp [charListLe, hbc]
          · subst hbc
            simp only [charListLe, lt_irrefl, if_neg, not_false_iff,
              if_false] at h1 h2 ⊢
            exact ih bs cs h1 h2
          · have hnbc : ¬ a < c := not_lt.mpr hbc.le
            simp [charListLe, hnbc, hbc] at h2
        · have hnab : ¬ a < b := not_lt.mpr hab.le
          simp [charListLe, hnab, hab] at h1

theorem charListLe_antisymm : ∀ (as bs : List Char),
    charListLe as bs = true → charListLe bs as = true → as = bs := by
  intro as
  induction as with
  | nil =>
    intro bs h1 h2
    cases bs with
    | nil => rfl
    | cons b bs => simp [charListLe] at h2
  | cons a as ih =>
    intro bs h1 h2
    cases bs with
    | nil => simp [charListLe] at h1
    | cons b bs =>
      rcases lt_trichotomy a b with hab | hab | hab
      · have hnba : ¬ b < a := not_lt.mpr hab.le
        simp [charListLe, hnba, hab] at h2
      · subst hab
        simp only [charListLe, lt_irrefl, if_neg, not_false_iff,
          if_false] at h1 h2
        rw [ih bs h1 h2]
      · have hnab : ¬ a < b := not_lt.mpr hab.le
        simp [charListLe, hnab, hab] at h1

instance : IsTrans String strLe :=
  ⟨fun a b c h1 h2 => charListLe_trans a.data b.data c.data h1 h2⟩

instance : IsTotal String strLe :=
  ⟨fun a b => charListLe_total a.data b.data⟩

instance : IsAntisymm String strLe :=
  ⟨fun a b h1 h2 => String.ext (charListLe_antisymm a.data b.data h1 h2)⟩

theorem sortIPs_perm (l : List String) : (sortIPs l).Perm l :=
  List.perm_insertionSort strLe l

theorem sortIPs_sorted (l : List String) : List.Sorted strLe (sortIPs l) :=
  List.sorted_insertionSort strLe l

theorem sortIPs_eq_iff (a b : List String) :
    sortIPs a = sortIPs b ↔ a.Perm b := by
  constructor
  · intro h
    exact (sortIPs_perm a).symm.trans (by rw [h]; exact sortIPs_perm b)
  · intro h
    exact List.eq_of_perm_of_sorted
      ((sortIPs_perm a).trans (h.trans (sortIPs_perm b).symm))
      (sortIPs_sorted a) (sortIPs_sorted b)

/-- C5 (Record-set archetype B): with a non-empty desired list, the Azure
adaptor issues a PUT iff desired and current differ as multisets; with an
empty desired list it issues a DELETE iff the current list is non-empty and
succeeds without any request when both are empty; and it never issues more
than one mutating request per call. -/
theorem record_set_put_iff (cur ips : List String) (ttl : Int)
    (oracle : AzRequest → Option String) :
    (ips ≠ [] →
        ((∃ l t, AzRequest.put l t
            ∈ (azureUpdateRecords cur ips ttl oracle).requests)
          ↔ ¬ ips.Perm cur)) ∧
      (ips = [] →
        ((AzRequest.delete ∈ (azureUpdateRecords cur ips ttl oracle).requests)
          ↔ cur ≠ [])) ∧
      (ips = [] → cur = [] →
        (azureUpdateRecords cur ips ttl oracle).requests = [] ∧
          (azureUpdateRecords cur ips ttl oracle).err = none) ∧
      (azureUpdateRecords cur ips ttl oracle).requests.length ≤ 1 := by
  by_cases hips : ips = []
  · subst hips
    by_cases hcur : cur = []
    · subst hcur
      exact ⟨fun h => absurd rfl h, fun _ => by simp [azureUpdateRecords],
        fun _ _ => ⟨rfl, rfl⟩, by simp [azureUpdateRecords]⟩
    · have hreq : (azureUpdateRecords cur [] ttl oracle).requests
          = [AzRequest.delete] := by
        simp only [azureUpdateRecords, List.length_nil, if_pos]
        rw [if_neg (by simpa [List.length_eq_zero] using hcur)]
        cases oracle .delete with
        | some e => rfl
        | none => rfl
      refine ⟨fun h => absurd rfl h, fun _ => ?_, fun _ hc => absurd hc hcur,
        by rw [hreq]; exact Nat.le_refl 1⟩
      rw [hreq]
      simp [hcur]
  · have hlen0 : ¬ ips.length = 0 := by simpa [List.length_eq_zero] using hips
    by_cases hlen : ips.length ≠ cur.length
    · have hreq : ∃ l t, (azureUpdateRecords cur ips ttl oracle).requests
          = [AzRequest.put l t] := by
        simp only [azureUpdateRecords]
        rw [if_neg hlen0, if_pos hlen]
        cases oracle (.put ips ttl) with
        | some e => exact ⟨ips, ttl, rfl⟩
        | none => exact ⟨ips, ttl, rfl⟩
      obtain ⟨l, t, hreq⟩ := hreq
      refine ⟨fun _ => ?_, fun h => absurd h hips, fun h => absurd h hips,
        by rw [hreq]; exact Nat.le_refl 1⟩
      rw [hreq]
      constructor
      · intro _
        exact fun hperm => hlen hperm.length_eq
      · intro _
        exact ⟨l, t, by simp⟩
    · rw [not_not] at hlen
      by_cases hs : sortIPs ips = sortIPs cur
      · have hreq : (azureUpdateRecords cur ips ttl oracle).requests = [] := by
          simp only [azureUpdateRecords]
          rw [if_neg hlen0, if_neg (by rw [hlen]; exact fun h => h rfl),
            if_pos hs]
        refine ⟨fun _ => ?_, fun h => absurd h hips, fun h => absurd h hips,
          by rw [hreq]; exact Nat.le_of_lt_succ (by simp)⟩
        rw [hreq]
        simp only [List.not_mem_nil, exists_false, false_iff, not_not]
        exact (sortIPs_eq_iff ips cur).mp hs
      · have hreq : (azureUpdateRecords cur ips ttl oracle).requests
            = [AzRequest.put (sortIPs ips) ttl] := by
          simp only [azureUpdateRecords]
          rw [if_neg hlen0, if_neg (by rw [hlen]; exact fun h => h rfl),
            if_neg hs]
          cases oracle (.put (sortIPs ips) ttl) with
          | some e => rfl
          | none => rfl
        refine ⟨fun _ => ?_, fun h => absurd h hips, fun h => absurd h hips,
          by rw [hreq]; exact Nat.le_refl 1⟩
        rw [hreq]
        constructor
        · intro _
          exact fun hperm => hs ((sortIPs_eq_iff ips cur).mpr hperm)
        · intro _
          exact ⟨sortIPs ips, ttl, by simp⟩

/-- Witness for C5: desired `["2.2.2.2"]` against current `["1.1.1.1"]`
differ, so a PUT is issued; at most one request either way. -/
theorem record_set_put_iff_witness :
    ((∃ l t, AzRequest.put l t
        ∈ (azureUpdateRecords ["1.1.1.1"] ["2.2.2.2"] 60
            (fun _ => none)).requests)
      ↔ ¬ (["2.2.2.2"] : List String).Perm ["1.1.1.1"]) ∧
    (azureUpdateRecords ["1.1.1.1"] ["2.2.2.2"] 60
        (fun _ => none)).requests.length ≤ 1 :=
  ⟨(record_set_put_iff ["1.1.1.1"] ["2.2.2.2"] 60 (fun _ => none)).1
      (by decide),
    (record_set_put_iff ["1.1.1.1"] ["2.2.2.2"] 60 (fun _ => none)).2.2.2⟩

/-- C6 (Reconciliation idempotence): when the provider's current state already
equals the desired IPs as a multiset, the record-oriented adaptors
(Cloudflare, Unifi) and the record-set adaptor (Azure) issue zero mutating
requests and return success. -/
theorem reconciliation_idempotence (records : List CFRecord)
    (ips cur : List String) (ttl : Int) (oracle : CFRequest → Option String)
    (azOracle : AzRequest → Option String) :
    ((records.map CFRecord.content).Perm ips →
        cloudflareUpdateRecords records ips oracle = ([], none) ∧
          unifiUpdateRecords records ips oracle = ([], none)) ∧
      (cur.Perm ips →
        (azureUpdateRecords cur ips ttl azOracle).requests = [] ∧
          (azureUpdateRecords cur ips ttl azOracle).err = none) := by
  constructor
  · intro hperm
    have hplanned : cfPlannedRequests records ips = [] := by
      rw [cfPlannedRequests]
      have h1 : (buildExistingIPs records).filter (fun e => e.1 ∉ ips)
          = [] := by
        rw [List.filter_eq_nil_iff]
        intro e he
        simp only [decide_eq_true_eq, Decidable.not_not]
        exact hperm.mem_iff.mp ((buildExistingIPs_isSome records e.1).mp
          (alistGet_isSome_of_mem _ e he))
      have h2 : ips.filter
          (fun ip => (alistGet (buildExistingIPs records) ip).isNone)
          = [] := by
        rw [List.filter_eq_nil_iff]
        intro ip hip
        have hs := (buildExistingIPs_isSome records ip).mpr
          (hperm.mem_iff.mpr hip)
        intro h
        rw [Option.isNone_iff_eq_none] at h
        rw [h] at hs
        simp at hs
      rw [h1, h2]
      rfl
    exact ⟨by rw [cloudflareUpdateRecords_eq_issueSequentially, hplanned]; rfl,
      by rw [unifiUpdateRecords_eq,
        cloudflareUpdateRecords_eq_issueSequentially, hplanned]; rfl⟩
  · intro hperm
    by_cases hips : ips = []
    · subst hips
      have hcur : cur = [] := hperm.eq_nil
      subst hcur
      exact ⟨rfl, rfl⟩
    · have hlen0 : ¬ ips.length = 0 := by
        simpa [List.length_eq_zero] using hips
      have hsort : sortIPs ips = sortIPs cur :=
        (sortIPs_eq_iff ips cur).mpr hperm.symm
      constructor
      · simp only [azureUpdateRecords]
        rw [if_neg hlen0,
          if_neg (by rw [hperm.length_eq]; exact fun h => h rfl), if_pos hsort]
      · simp only [azureUpdateRecords]
        rw [if_neg hlen0,
          if_neg (by rw [hperm.length_eq]; exact fun h => h rfl), if_pos hsort]

/-- Witness for C6: a single already-published IP produces zero requests on
both archetypes. -/
theorem reconciliation_idempotence_witness :
    cloudflareUpdateRecords [⟨"id1", "1.1.1.1"⟩] ["1.1.1.1"] (fun _ => none)
        = ([], none) ∧
      (azureUpdateRecords ["1.1.1.1"] ["1.1.1.1"] 60
        (fun _ => none)).requests = [] :=
  ⟨((reconciliation_idempotence [⟨"id1", "1.1.1.1"⟩] ["1.1.1.1"] ["1.1.1.1"]
      60 (fun _ => none) (fun _ => none)).1 (List.Perm.refl _)).1,
    ((reconciliation_idempotence [⟨"id1", "1.1.1.1"⟩] ["1.1.1.1"] ["1.1.1.1"]
      60 (fun _ => none) (fun _ => none)).2 (List.Perm.refl _)).1⟩

/-- C10 (implicit): when the desired list is non-empty and has the same
length as the provider's current list, the Azure `UpdateRecords` sorts both
lists in place, so the caller's desired slice holds the sorted list after the
call. -/
theorem azure_update_sorts_in_place (cur ips : List String) (ttl : Int)
    (oracle : AzRequest → Option String) (h1 : ips ≠ [])
    (h2 : ips.length = cur.length) :
    (azureUpdateRecords cur ips ttl oracle).ipsAfter = sortIPs ips ∧
      (azureUpdateRecords cur ips ttl oracle).currentAfter = sortIPs cur := by
  simp only [azureUpdateRecords]
  rw [if_neg (by simpa [List.length_eq_zero] using h1),
    if_neg (fun hh => hh h2)]
  by_cases hs : sortIPs ips = sortIPs cur
  · rw [if_pos hs]
    exact ⟨rfl, rfl⟩
  · rw [if_neg hs]
    cases oracle (.put (sortIPs ips) ttl) with
    | some e => exact ⟨rfl, rfl⟩
    | none => exact ⟨rfl, rfl⟩

/-- Witness for C10: a concrete call that reorders the caller's slice. -/
theorem azure_update_sorts_in_place_witness :
    (azureUpdateRecords ["9.9.9.9", "8.8.8.8"] ["2.2.2.2", "1.1.1.1"] 60
        (fun _ => none)).ipsAfter = ["1.1.1.1", "2.2.2.2"] ∧
      (["1.1.1.1", "2.2.2.2"] : List String) ≠ ["2.2.2.2", "1.1.1.1"] :=
  ⟨((azure_update_sorts_in_place ["9.9.9.9", "8.8.8.8"]
      ["2.2.2.2", "1.1.1.1"] 60 (fun _ => none) (by decide)
      (by decide)).1).trans (by decide),
    by decide⟩

/-- C8 is violated by the code: in the reachable state where `10.0.0.1` has
one consecutive failure (below `attempts = 2`) but was never published, the
status derivation emits no entry at all for it, although it is present in the
failure-count map and absent from the published set. -/
theorem status_omits_unpublished_graceful_ip :
    "10.0.0.1" ∈ ([("10.0.0.1", 1)].map Prod.fst) ∧
      "10.0.0.1" ∉ ([] : List String) ∧
      getStatusEndpoints [] [("10.0.0.1", 1)] 2 = [] := by
  decide

/-- C9 is violated by the code: probing an https endpoint with a host override
writes the override transport back into the checker's shared HTTP client
(`client := c.client` aliases the shared client, and the code ends with
`client.Transport = transport`), so the shared client's transport is changed
from nil to a transport carrying the endpoint's `ServerName`. -/
theorem probe_mutates_shared_client :
    checkEndpointClientTransport none "internal.example.com" true
        = some ⟨some ⟨"internal.example.com", 771⟩⟩ ∧
      checkEndpointClientTransport none "internal.example.com" true
        ≠ none := by
  decide

end Ddup
